import Mathlib

/-
Verification of the ancestry-admixture estimator (ancestry_analysis_01.py).

The script is embedded shallowly: Python strings become lists of characters,
Python dicts become association lists whose insert operation replaces the
value of an existing key in place (preserving insertion order, as CPython
dicts do), Python floats become exact rationals during parsing/aggregation
and real numbers inside the likelihood computation (an idealisation of IEEE
arithmetic), and Python code that can raise (IndexError on a short row)
returns Option.
-/

namespace Ancestry

/-- Keys (Python strings used as dict keys) are modelled as lists of characters. -/
abbrev Key := List Char

/-- Python dict lookup `d[k]` / `k in d`: the value of the (unique) matching key.
On the association lists produced below each key occurs at most once; lookup
returns the first match. -/
def dlookup {α : Type} (k : Key) : List (Key × α) → Option α
  | [] => none
  | kv :: rest => if kv.1 = k then some kv.2 else dlookup k rest

/-- Python dict assignment `d[k] = v`: replaces the value of an existing key in
place (keeping its position, as CPython dicts do) or appends a new entry. -/
def dinsert {α : Type} (k : Key) (v : α) : List (Key × α) → List (Key × α)
  | [] => [(k, v)]
  | kv :: rest => if kv.1 = k then (k, v) :: rest else kv :: dinsert k v rest

/-- Python `str.split(sep)` for a one-character separator: splits on every
occurrence and keeps empty pieces (so the result is never empty). -/
def splitOnChar (sep : Char) : List Char → List (List Char)
  | [] => [[]]
  | c :: cs =>
    match splitOnChar sep cs with
    | [] => [[]]
    | h :: t => if c = sep then [] :: h :: t else (c :: h) :: t

/-- Python `str.split(sep)` for a two-character separator: splits at each
non-overlapping occurrence of the pair, scanning left to right, and keeps
empty pieces. The source's split calls are written `split('\\n')` and
`split('\\t')` — in a Python string literal the doubled backslash denotes a
single backslash character, so those separators are the two-character
sequences backslash-n and backslash-t, not the newline and tab characters. -/
def splitOnPair (c1 c2 : Char) : List Char → List (List Char)
  | [] => [[]]
  | [c] => [[c]]
  | a :: b :: rest =>
    if a = c1 ∧ b = c2 then [] :: splitOnPair c1 c2 rest
    else
      match splitOnPair c1 c2 (b :: rest) with
      | [] => [[a]]
      | h :: t => (a :: h) :: t

/-- Characters removed by Python `str.strip()` (space, tab, newline, carriage
return, vertical tab, form feed). -/
def isPyWS (c : Char) : Bool :=
  c.toNat = 32 || c.toNat = 9 || c.toNat = 10 || c.toNat = 13 || c.toNat = 11 || c.toNat = 12

/-- Python `str.strip()`: drop whitespace from both ends. -/
def trimChars (l : List Char) : List Char :=
  ((l.dropWhile isPyWS).reverse.dropWhile isPyWS).reverse

/-- Lines 112-117 of the source: the if/elif chain classifying one genotype
string, `some 0` for homozygous reference, `some 1` for the recognised
heterozygous encodings, `some 2` for homozygous alternate, `none` when the
string is unrecognised (the chain falls through and the variant is skipped). -/
def classifyGenotype (g : Key) : Option Nat :=
  if g = "0/0".data ∨ g = "0|0".data then some 0
  else if g = "0/1".data ∨ g = "0|1".data ∨ g = "1|0".data then some 1
  else if g = "1/1".data ∨ g = "1|1".data then some 2
  else none

/-- One iteration of the loop of `parse_vcf` (lines 105-117): comment lines
are skipped, `fields = line.split('\\t')` splits on the two-character
separator backslash-t (as the source writes it), `fields[2]` and `fields[9]`
raise IndexError when fewer fields result (modelled as `none`), the genotype
string is `fields[9].split(':')[0]` (a real one-character colon separator),
and the variant is entered into the dict only when the genotype string is
recognised. -/
def parseVcfLine (acc : List (Key × Nat)) (line : Key) : Option (List (Key × Nat)) :=
  if line.head? = some '#' then some acc
  else
    match (splitOnPair '\\' 't' line).get? 2, (splitOnPair '\\' 't' line).get? 9 with
    | some vid, some f9 =>
      match classifyGenotype ((splitOnChar ':' f9).headD []) with
      | some g => some (dinsert vid g acc)
      | none => some acc
    | _, _ => none

/-- Function `parse_vcf` (lines 98-118): strip the content, split it into
"lines" on the two-character separator backslash-n (the source writes
`split('\\n')`), and fold the per-line step over an initially empty dict. -/
def parse_vcf (content : String) : Option (List (Key × Nat)) :=
  (splitOnPair '\\' 'n' (trimChars content.data)).foldlM parseVcfLine []

/-- Helper for the model of Python `float()`: consume a maximal run of decimal
digits, returning their value, how many there were, and the rest of the input. -/
def parseDigits : List Char → Nat → Nat → Nat × Nat × List Char
  | [], acc, n => (acc, n, [])
  | c :: cs, acc, n =>
    if 48 ≤ c.toNat ∧ c.toNat ≤ 57 then parseDigits cs (acc * 10 + (c.toNat - 48)) (n + 1)
    else (acc, n, c :: cs)

/-- Helper for the model of Python `float()`: an optional leading sign. -/
def parseSign : List Char → Int × List Char
  | [] => (1, [])
  | c :: cs => if c = '-' then (-1, cs) else if c = '+' then (1, cs) else (1, c :: cs)

/-- Model of Python `float(s)` on decimal literals, returning `none` exactly
when Python raises ValueError: surrounding whitespace is stripped, then an
optional sign, digits with an optional fractional part (at least one digit in
total), and an optional exponent are accepted. The special strings inf/nan and
underscore digit separators accepted by CPython are not modelled; the reference
table cells of this program are plain decimals. -/
def parseFloatQ (s : Key) : Option ℚ :=
  let t := trimChars s
  let s1 := parseSign t
  let d1 := parseDigits s1.2 0 0
  let frac :=
    match d1.2.2 with
    | c :: cs => if c = '.' then parseDigits cs 0 0 else (0, 0, c :: cs)
    | [] => ((0 : Nat), (0 : Nat), ([] : List Char))
  if d1.2.1 + frac.2.1 = 0 then none
  else
    let mant : ℚ := (s1.1 : ℚ) * ((d1.1 : ℚ) * 10 ^ frac.2.1 + (frac.1 : ℚ)) / 10 ^ frac.2.1
    match frac.2.2 with
    | [] => some mant
    | c :: cs =>
      if c = 'e' ∨ c = 'E' then
        let es := parseSign cs
        let ed := parseDigits es.2 0 0
        if ed.2.1 = 0 then none
        else
          match ed.2.2 with
          | [] => some (mant * 10 ^ ((es.1 : ℤ) * (ed.1 : ℤ)))
          | _ :: _ => none
      else none

/-- Inner loop of `parse_reference` (lines 135-141): pair the data cells of a
row with the header ethnicities positionally; a row with more data cells than
the header has ethnicities raises IndexError (modelled as `none`); an
unparsable cell is entered as frequency 0. -/
def buildRowAux : List Key → List Key → List (Key × ℚ) → Option (List (Key × ℚ))
  | _, [], acc => some acc
  | [], _ :: _, _ => none
  | e :: es, c :: cs, acc => buildRowAux es cs (dinsert e ((parseFloatQ c).getD 0) acc)

/-- Function `parse_reference` (lines 121-143): the content is split into
"lines" and each line into fields on the two-character separators backslash-n
and backslash-t (the source writes `split('\\n')` and `split('\\t')`); the
first line is the header, `header[1:]` are the ethnicity column names, and
every following line contributes one row keyed by its first field. -/
def parse_reference (content : String) : Option (List (Key × List (Key × ℚ))) :=
  match splitOnPair '\\' 'n' (trimChars content.data) with
  | [] => none
  | header :: rest =>
    rest.foldlM
      (fun acc line =>
        match splitOnPair '\\' 't' line with
        | [] => none
        | vid :: cells =>
          match buildRowAux ((splitOnPair '\\' 't' header).drop 1) cells [] with
          | some row => some (dinsert vid row acc)
          | none => none)
      []

/-- Python string comparison `a < b` (lexicographic on code points), used by
`sorted` on the major-population names. -/
def keyLt : Key → Key → Bool
  | [], [] => false
  | [], _ :: _ => true
  | _ :: _, [] => false
  | a :: as, b :: bs =>
    if a.toNat < b.toNat then true
    else if b.toNat < a.toNat then false
    else keyLt as bs

/-- Stable ascending insertion for the model of Python `sorted` on strings. -/
def insertAsc (x : Key) : List Key → List Key
  | [] => [x]
  | y :: ys => if keyLt y x then y :: insertAsc x ys else x :: y :: ys

/-- Model of Python `sorted` on a list of strings. Python uses a stable
comparison sort; a stable sort's output is determined by the order alone, so
stable insertion sort computes the same list. -/
def sortKeys : List Key → List Key
  | [] => []
  | x :: xs => insertAsc x (sortKeys xs)

/-- Line 151 of the source: `sorted(list(set(pop_map.values())))`, the distinct
major population names in ascending order. -/
def sortedMajors (pm : List (Key × Key)) : List Key :=
  sortKeys (pm.map Prod.snd).dedup

/-- Accumulation of `pop_sums[pop]` (lines 160-167) projected to one group:
the sum of the frequencies of the ethnicities of the row that the population
map sends to `g`. -/
def popSums (row : List (Key × ℚ)) (pm : List (Key × Key)) (g : Key) : ℚ :=
  row.foldl (fun s er => if dlookup er.1 pm = some g then s + er.2 else s) 0

/-- Accumulation of `pop_counts[pop]` (lines 160-167) projected to one group. -/
def popCounts (row : List (Key × ℚ)) (pm : List (Key × Key)) (g : Key) : Nat :=
  row.foldl (fun n er => if dlookup er.1 pm = some g then n + 1 else n) 0

/-- Lines 170-175 of the source: the aggregated value of one (group, variant)
cell, the average when at least one mapped ethnicity contributed and the
explicit undefined marker `None` otherwise. -/
def aggVal (row : List (Key × ℚ)) (pm : List (Key × Key)) (g : Key) : Option ℚ :=
  if 0 < popCounts row pm g then some (popSums row pm g / (popCounts row pm g : ℚ)) else none

/-- Function `aggregate_frequencies` (lines 146-177): for every major group (in
sorted order) a dict from each variant of the reference table (in table order)
to the aggregated cell value. The Python code fills all group rows inside one
loop over variants; since distinct group rows never interact, that interleaved
fill produces exactly this group-by-group structure. -/
def aggregate_frequencies (R : List (Key × List (Key × ℚ))) (pm : List (Key × Key)) :
    List (Key × List (Key × Option ℚ)) :=
  (sortedMajors pm).map fun g =>
    (g, R.foldl (fun grow vr => dinsert vr.1 (aggVal vr.2 pm g) grow) [])

/-- Line 185 of the source: `epsilon = 1e-9`. -/
noncomputable def epsilon : ℝ := 1 / 1000000000

/-- Line 195 of the source: `p = max(epsilon, min(1 - epsilon, p))`. -/
noncomputable def clampFreq (q : ℚ) : ℝ := max epsilon (min (1 - epsilon) (q : ℝ))

/-- Lines 198-203 of the source: the Hardy-Weinberg genotype probability; the
final `else` covers every genotype other than 0 and 1, as in the Python code. -/
noncomputable def hwProb (genotype : Nat) (p : ℝ) : ℝ :=
  if genotype = 0 then (1 - p) ^ 2
  else if genotype = 1 then 2 * p * (1 - p)
  else p ^ 2

/-- Line 205 of the source: the argument `max(prob, epsilon)` handed to
`math.log` for a variant whose stored frequency is `q`. -/
noncomputable def logArg (genotype : Nat) (q : ℚ) : ℝ :=
  max (hwProb genotype (clampFreq q)) epsilon

/-- Lines 190-205 of the source: the contribution of one sample variant to a
group's log-likelihood; a variant absent from the group's row or stored as the
undefined marker is skipped (contributes 0 to the running sum). -/
noncomputable def variantTerm (freqs : List (Key × Option ℚ)) (v : Key) (genotype : Nat) : ℝ :=
  match dlookup v freqs with
  | some (some q) => Real.log (logArg genotype q)
  | _ => 0

/-- Lines 188-205 of the source: `total_log_likelihood` of one group. -/
noncomputable def groupLogLik (genos : List (Key × Nat)) (freqs : List (Key × Option ℚ)) : ℝ :=
  (genos.map fun vg => variantTerm freqs vg.1 vg.2).sum

/-- Lines 184-207 of the source: the dict `log_likelihoods`. -/
noncomputable def logLikelihoods (genos : List (Key × Nat))
    (T : List (Key × List (Key × Option ℚ))) : List (Key × ℝ) :=
  T.foldl (fun acc pf => dinsert pf.1 (groupLogLik genos pf.2) acc) []

/-- Python `max` over a list of numbers; Python raises ValueError on an empty
sequence, so the value 0 returned here for `[]` is never relied upon — every
theorem about the normalisation step assumes a non-empty group table. -/
noncomputable def listMax : List ℝ → ℝ
  | [] => 0
  | x :: xs => xs.foldl max x

/-- Line 211 of the source: `max_log_like = max(log_likelihoods.values())`. -/
noncomputable def maxLogLik (genos : List (Key × Nat))
    (T : List (Key × List (Key × Option ℚ))) : ℝ :=
  listMax ((logLikelihoods genos T).map Prod.snd)

/-- Line 212 of the source: the dict `likelihoods` of rescaled likelihoods
`exp(ll - max_log_like)`. -/
noncomputable def likelihoods (genos : List (Key × Nat))
    (T : List (Key × List (Key × Option ℚ))) : List (Key × ℝ) :=
  (logLikelihoods genos T).map fun pl => (pl.1, Real.exp (pl.2 - maxLogLik genos T))

/-- Line 214 of the source: `total_likelihood = sum(likelihoods.values())`. -/
noncomputable def totalLikelihood (genos : List (Key × Nat))
    (T : List (Key × List (Key × Option ℚ))) : ℝ :=
  ((likelihoods genos T).map Prod.snd).sum

open Classical in
/-- Function `calculate_admixture` (lines 180-220): the all-zero dict when the
total likelihood is zero, otherwise each rescaled likelihood divided by the
total. -/
noncomputable def calculate_admixture (genos : List (Key × Nat))
    (T : List (Key × List (Key × Option ℚ))) : List (Key × ℝ) :=
  if totalLikelihood genos T = 0 then T.foldl (fun acc pf => dinsert pf.1 (0 : ℝ) acc) []
  else (likelihoods genos T).map fun pl => (pl.1, pl.2 / totalLikelihood genos T)

open Classical in
/-- Stable descending insertion for the model of line 237. -/
noncomputable def insertDesc (x : Key × ℝ) : List (Key × ℝ) → List (Key × ℝ)
  | [] => [x]
  | y :: ys => if y.2 ≤ x.2 then x :: y :: ys else y :: insertDesc x ys

/-- Line 237 of the source: `sorted(proportions.items(), key=lambda item:
item[1], reverse=True)`. Python's sort is stable, and a stable sort's output is
determined by the ordering alone, so stable insertion sort computes it. -/
noncomputable def sortedProportions : List (Key × ℝ) → List (Key × ℝ)
  | [] => []
  | x :: xs => insertDesc x (sortedProportions xs)

/-- Lines 75-83 of the source: the bundled example VCF data. -/
def sample_vcf_data : String :=
  "##fileformat=VCFv4.2\n##INFO=<ID=NS,Number=1,Type=Integer,Description=\"Number of Samples With Data\">\n#CHROM\tPOS\tID\tREF\tALT\tQUAL\tFILTER\tINFO\tFORMAT\tSAMPLE_01\nchr1\t1001\trs1\tA\tG\t100\tPASS\t.\tGT\t0/1\nchr1\t2002\trs2\tC\tT\t100\tPASS\t.\tGT\t1/1\nchr2\t3003\trs3\tG\tA\t100\tPASS\t.\tGT\t0/0\nchr5\t4004\trs4\tT\tC\t100\tPASS\t.\tGT\t1/1\nchr7\t5005\trs5\tC\tG\t100\tPASS\t.\tGT\t0/1\n"

/-- Lines 87-93 of the source: the bundled example reference frequency table. -/
def reference_tsv_data : String :=
  "VariantID\tBritish\tFrench\tYoruba\tMende\tHanChinese\tJapanese\nrs1\t0.51\t0.48\t0.95\t0.92\t0.05\t0.03\nrs2\t0.20\t0.22\t0.01\t0.02\t0.85\t0.89\nrs3\t0.88\t0.85\t0.15\t0.18\t0.30\t0.33\nrs4\t0.05\t0.07\t0.65\t0.68\t0.95\t0.92\nrs5\t0.40\t0.42\t0.80\t0.77\t0.10\t0.12\n"

/-- Lines 39-67 of the source: the POPULATION_MAP dict, 79 ethnicities mapped
to 7 distinct major groups (the comments in the source speak of 10 groups but
only 7 distinct values occur). -/
def POPULATION_MAP : List (Key × Key) :=
  [("Yoruba".data, "African".data), ("Mende".data, "African".data),
   ("Luhya".data, "African".data), ("Gambian".data, "African".data),
   ("Esan".data, "African".data),
   ("Bedouin".data, "Middle Eastern".data), ("Egyptian".data, "Middle Eastern".data),
   ("Druze".data, "Middle Eastern".data), ("Palestinian".data, "Middle Eastern".data),
   ("Mozabite".data, "Middle Eastern".data),
   ("British".data, "European".data), ("Finnish".data, "European".data),
   ("Spanish".data, "European".data), ("Tuscan".data, "European".data),
   ("French".data, "European".data), ("Russian".data, "European".data),
   ("Sardinian".data, "European".data),
   ("Punjabi".data, "Central/South Asian".data), ("Gujarati".data, "Central/South Asian".data),
   ("Bengali".data, "Central/South Asian".data), ("Telugu".data, "Central/South Asian".data),
   ("Tamil".data, "Central/South Asian".data),
   ("HanChinese".data, "East Asian".data), ("Japanese".data, "East Asian".data),
   ("Korean".data, "East Asian".data), ("Vietnamese".data, "East Asian".data),
   ("Dai".data, "East Asian".data),
   ("Peruvian".data, "Americas".data), ("Colombian".data, "Americas".data),
   ("Mayan".data, "Americas".data), ("Pima".data, "Americas".data),
   ("Karitiana".data, "Americas".data),
   ("Papuan".data, "Oceanian".data), ("Melanesian".data, "Oceanian".data),
   ("Australian".data, "Oceanian".data),
   ("Italian".data, "European".data), ("Orcadian".data, "European".data),
   ("Adygei".data, "Middle Eastern".data), ("Basque".data, "European".data),
   ("Bantu".data, "African".data), ("San".data, "African".data),
   ("MbutiPygmy".data, "African".data), ("BiakaPygmy".data, "African".data),
   ("Uygur".data, "Central/South Asian".data), ("Hazara".data, "Central/South Asian".data),
   ("Kalash".data, "Central/South Asian".data), ("Pathan".data, "Central/South Asian".data),
   ("Burusho".data, "Central/South Asian".data), ("Makrani".data, "Central/South Asian".data),
   ("Sindhi".data, "Central/South Asian".data), ("Brahui".data, "Central/South Asian".data),
   ("Balochi".data, "Central/South Asian".data),
   ("Yakut".data, "East Asian".data), ("Mongola".data, "East Asian".data),
   ("Daur".data, "East Asian".data), ("Hezhen".data, "East Asian".data),
   ("Xibo".data, "East Asian".data),
   ("Naxi".data, "East Asian".data), ("Yi".data, "East Asian".data),
   ("Tu".data, "East Asian".data), ("Tujia".data, "East Asian".data),
   ("She".data, "East Asian".data), ("Miao".data, "East Asian".data),
   ("Lahu".data, "East Asian".data), ("Cambodian".data, "East Asian".data),
   ("Surui".data, "Americas".data), ("Quechua".data, "Americas".data),
   ("Mixtec".data, "Americas".data), ("Zapotec".data, "Americas".data),
   ("Mixe".data, "Americas".data), ("Tlingit".data, "Americas".data),
   ("Inuit".data, "Americas".data),
   ("Chukchi".data, "East Asian".data), ("Koryak".data, "East Asian".data),
   ("Itelmen".data, "East Asian".data), ("Evenk".data, "East Asian".data),
   ("Nanai".data, "East Asian".data), ("Ulchi".data, "East Asian".data),
   ("Negidal".data, "East Asian".data), ("Oroqen".data, "East Asian".data),
   ("Ewen".data, "East Asian".data), ("Dolgans".data, "East Asian".data),
   ("Nganasan".data, "East Asian".data), ("Enets".data, "East Asian".data),
   ("Selkup".data, "East Asian".data), ("Ket".data, "Central/South Asian".data),
   ("Samoyed".data, "European".data)]

/-- Spec-side definition (for the refinement statement about
`aggregate_frequencies`): the fine populations that appear as a column for the
variant's row and map to the major group `g`. -/
def qualifyingPops (row : List (Key × ℚ)) (pm : List (Key × Key)) (g : Key) : List (Key × ℚ) :=
  row.filter fun er => decide (dlookup er.1 pm = some g)

/-- Spec-side definition: the unweighted arithmetic mean of the qualifying
fine-population frequencies, or the explicit undefined marker when zero
qualifying fine populations exist. -/
def specMean (row : List (Key × ℚ)) (pm : List (Key × Key)) (g : Key) : Option ℚ :=
  if (qualifyingPops row pm g).length = 0 then none
  else some (((qualifyingPops row pm g).map Prod.snd).sum / ((qualifyingPops row pm g).length : ℚ))

/-- Group frequency table that `aggregate_frequencies` produces from the empty
reference table and `POPULATION_MAP` — the table the real pipeline run on the
bundled data reaches, since both parsers split on separators that never occur
in their input and so extract no variants. -/
def emptyAgg : List (Key × List (Key × Option ℚ)) :=
  [("African".data, []),
   ("Americas".data, []),
   ("Central/South Asian".data, []),
   ("East Asian".data, []),
   ("European".data, []),
   ("Middle Eastern".data, []),
   ("Oceanian".data, [])]

/-! Lemmas about the dict model. -/

theorem dlookup_dinsert {α : Type} (x k : Key) (v : α) (l : List (Key × α)) :
    dlookup x (dinsert k v l) = if k = x then some v else dlookup x l := by
  induction l with
  | nil => simp [dinsert, dlookup]
  | cons kv rest ih =>
    by_cases h : kv.1 = k
    · simp only [dinsert, if_pos h, dlookup]
      by_cases hx : k = x
      · simp [hx]
      · have : kv.1 = x ↔ False := by
          constructor
          · intro hh; exact hx (h ▸ hh)
          · intro hh; exact hh.elim
        simp [hx, this]
    · simp only [dinsert, if_neg h, dlookup, ih]
      by_cases hx : kv.1 = x
      · have : ¬ k = x := fun hk => h (by rw [hx, hk])
        simp [hx, this]
      · simp [hx]

theorem dinsert_ne_nil {α : Type} (k : Key) (v : α) (l : List (Key × α)) :
    dinsert k v l ≠ [] := by
  cases l with
  | nil => simp [dinsert]
  | cons kv rest =>
    by_cases h : kv.1 = k <;> simp [dinsert, h]

theorem dinsert_append {α : Type} (k : Key) (v : α) (l : List (Key × α))
    (h : dlookup k l = none) : dinsert k v l = l ++ [(k, v)] := by
  induction l with
  | nil => simp [dinsert]
  | cons kv rest ih =>
    simp only [dlookup] at h
    by_cases hk : kv.1 = k
    · rw [if_pos hk] at h; exact absurd h (by simp)
    · rw [if_neg hk] at h
      simp [dinsert, hk, ih h]

theorem mem_foldl_dinsert {α β : Type} (f : Key × α → β) (T : List (Key × α))
    (acc : List (Key × β)) (z : Key × β)
    (hz : z ∈ T.foldl (fun acc p => dinsert p.1 (f p) acc) acc) :
    z ∈ acc ∨ ∃ p ∈ T, z = (p.1, f p) := by
  induction T generalizing acc with
  | nil => exact Or.inl hz
  | cons t ts ih =>
    rcases ih (dinsert t.1 (f t) acc) hz with h | ⟨p, hp, hzp⟩
    · have hmem : z = (t.1, f t) ∨ z ∈ acc := by
        clear hz
        induction acc with
        | nil => simpa [dinsert] using h
        | cons kv rest ih2 =>
          by_cases hk : kv.1 = t.1
          · rw [dinsert, if_pos hk] at h
            rcases List.mem_cons.mp h with h1 | h1
            · exact Or.inl h1
            · exact Or.inr (List.mem_cons_of_mem _ h1)
          · rw [dinsert, if_neg hk] at h
            rcases List.mem_cons.mp h with h1 | h1
            · exact Or.inr (h1 ▸ List.mem_cons_self _ _)
            · rcases ih2 h1 with h2 | h2
              · exact Or.inl h2
              · exact Or.inr (List.mem_cons_of_mem _ h2)
      rcases hmem with h1 | h1
      · exact Or.inr ⟨t, List.mem_cons_self _ _, h1⟩
      · exact Or.inl h1
    · exact Or.inr ⟨p, List.mem_cons_of_mem _ hp, hzp⟩

theorem foldl_dinsert_ne_nil {α β : Type} (f : Key × α → β) (T : List (Key × α))
    (acc : List (Key × β)) (h : acc ≠ [] ∨ T ≠ []) :
    T.foldl (fun acc p => dinsert p.1 (f p) acc) acc ≠ [] := by
  induction T generalizing acc with
  | nil => exact h.resolve_right (fun hh => hh rfl)
  | cons t ts ih =>
    exact ih (dinsert t.1 (f t) acc) (Or.inl (dinsert_ne_nil _ _ _))

theorem foldl_dinsert_append {α β : Type} (f : Key × α → β) (T : List (Key × α))
    (acc : List (Key × β)) (hd : (T.map Prod.fst).Nodup)
    (hacc : ∀ p ∈ T, dlookup p.1 acc = none) :
    T.foldl (fun acc p => dinsert p.1 (f p) acc) acc = acc ++ T.map (fun p => (p.1, f p)) := by
  induction T generalizing acc with
  | nil => simp
  | cons t ts ih =>
    simp only [List.map_cons, List.nodup_cons] at hd
    have h1 : dinsert t.1 (f t) acc = acc ++ [(t.1, f t)] :=
      dinsert_append _ _ _ (hacc t (List.mem_cons_self _ _))
    have h2 : ∀ p ∈ ts, dlookup p.1 (acc ++ [(t.1, f t)]) = none := by
      intro p hp
      have hne : t.1 ≠ p.1 := fun he => hd.1 (he ▸ List.mem_map_of_mem Prod.fst hp)
      have := dlookup_dinsert p.1 t.1 (f t) acc
      rw [dinsert_append _ _ _ (hacc t (List.mem_cons_self _ _))] at this
      rw [this, if_neg hne]
      exact hacc p (List.mem_cons_of_mem _ hp)
    rw [List.foldl_cons, h1, ih _ hd.2 h2, List.append_assoc]
    rfl

theorem foldl_dinsert_eq_map {α β : Type} (f : Key × α → β) (T : List (Key × α))
    (hd : (T.map Prod.fst).Nodup) :
    T.foldl (fun acc p => dinsert p.1 (f p) acc) [] = T.map (fun p => (p.1, f p)) := by
  have := foldl_dinsert_append f T [] hd (fun p _ => rfl)
  simpa using this

theorem dlookup_map_pair {β : Type} (g : Key) (f : Key → β) (l : List Key) (w : β)
    (h : dlookup g (l.map fun x => (x, f x)) = some w) : w = f g := by
  induction l with
  | nil => simp [dlookup] at h
  | cons x xs ih =>
    by_cases hx : x = g
    · rw [List.map_cons, dlookup, if_pos hx] at h
      subst hx
      exact (Option.some_injective _ h).symm
    · rw [List.map_cons, dlookup, if_neg hx] at h
      exact ih h

theorem dlookup_mem_of_nodup {α : Type} (l : List (Key × α)) (p : Key × α)
    (hd : (l.map Prod.fst).Nodup) (hp : p ∈ l) : dlookup p.1 l = some p.2 := by
  induction l with
  | nil => simp at hp
  | cons kv rest ih =>
    simp only [List.map_cons, List.nodup_cons] at hd
    rcases List.mem_cons.mp hp with h | h
    · subst h; simp [dlookup]
    · have hne : kv.1 ≠ p.1 := fun he => hd.1 (he ▸ List.mem_map_of_mem Prod.fst h)
      rw [dlookup, if_neg hne]
      exact ih hd.2 h

/-! Lemmas about the clamped Hardy-Weinberg probabilities. -/

theorem epsilon_pos : (0 : ℝ) < epsilon := by norm_num [epsilon]

theorem epsilon_lt_one : epsilon < 1 := by norm_num [epsilon]

theorem clampFreq_lower (q : ℚ) : epsilon ≤ clampFreq q := le_max_left _ _

theorem clampFreq_upper (q : ℚ) : clampFreq q ≤ 1 - epsilon := by
  unfold clampFreq
  refine max_le ?_ (min_le_left _ _)
  norm_num [epsilon]

theorem hwProb_pos (g : Nat) (p : ℝ) (h1 : epsilon ≤ p) (h2 : p ≤ 1 - epsilon) :
    0 < hwProb g p := by
  have hp : 0 < p := lt_of_lt_of_le epsilon_pos h1
  have hq : 0 < 1 - p := by
    have : epsilon ≤ 1 - p := by linarith
    linarith [epsilon_pos]
  unfold hwProb
  split
  · positivity
  · split
    · positivity
    · positivity

theorem hwProb_lt_one (g : Nat) (p : ℝ) (h1 : epsilon ≤ p) (h2 : p ≤ 1 - epsilon) :
    hwProb g p < 1 := by
  have he : (0:ℝ) < epsilon := epsilon_pos
  have hp : 0 < p := lt_of_lt_of_le he h1
  have hq : 0 ≤ 1 - p := by linarith
  unfold hwProb
  split
  · nlinarith
  · split
    · nlinarith [sq_nonneg (p - 1/2)]
    · nlinarith

theorem logArg_pos (g : Nat) (q : ℚ) : 0 < logArg g q :=
  lt_of_lt_of_le epsilon_pos (le_max_right _ _)

theorem logArg_lt_one (g : Nat) (q : ℚ) : logArg g q < 1 :=
  max_lt (hwProb_lt_one g _ (clampFreq_lower q) (clampFreq_upper q)) epsilon_lt_one

theorem variantTerm_nonpos (freqs : List (Key × Option ℚ)) (v : Key) (g : Nat) :
    variantTerm freqs v g ≤ 0 := by
  unfold variantTerm
  split
  · exact le_of_lt (Real.log_neg (logArg_pos _ _) (logArg_lt_one _ _))
  · exact le_refl 0

theorem variantTerm_neg (freqs : List (Key × Option ℚ)) (v : Key) (g : Nat) (q : ℚ)
    (h : dlookup v freqs = some (some q)) : variantTerm freqs v g < 0 := by
  unfold variantTerm
  rw [h]
  exact Real.log_neg (logArg_pos _ _) (logArg_lt_one _ _)

theorem sum_nonpos_of_forall (l : List ℝ) (h : ∀ x ∈ l, x ≤ 0) : l.sum ≤ 0 := by
  induction l with
  | nil => simp
  | cons x xs ih =>
    have h1 := h x (List.mem_cons_self _ _)
    have h2 := ih (fun y hy => h y (List.mem_cons_of_mem _ hy))
    simpa using add_nonpos h1 h2

theorem sum_neg_of_mem (l : List ℝ) (h : ∀ x ∈ l, x ≤ 0) (x : ℝ) (hx : x ∈ l) (hneg : x < 0) :
    l.sum < 0 := by
  induction l with
  | nil => simp at hx
  | cons y ys ih =>
    rcases List.mem_cons.mp hx with h1 | h1
    · have h2 : ys.sum ≤ 0 := sum_nonpos_of_forall ys (fun z hz => h z (List.mem_cons_of_mem _ hz))
      subst h1
      simpa using add_neg_of_neg_of_nonpos hneg h2
    · have h2 : y ≤ 0 := h y (List.mem_cons_self _ _)
      have h3 : ys.sum < 0 := ih (fun z hz => h z (List.mem_cons_of_mem _ hz)) h1
      simpa using add_neg_of_nonpos_of_neg h2 h3

theorem groupLogLik_nonpos (genos : List (Key × Nat)) (freqs : List (Key × Option ℚ)) :
    groupLogLik genos freqs ≤ 0 := by
  unfold groupLogLik
  refine sum_nonpos_of_forall _ ?_
  intro x hx
  rcases List.mem_map.mp hx with ⟨vg, _, rfl⟩
  exact variantTerm_nonpos _ _ _

theorem groupLogLik_neg (genos : List (Key × Nat)) (freqs : List (Key × Option ℚ))
    (vg : Key × Nat) (hvg : vg ∈ genos) (q : ℚ) (hq : dlookup vg.1 freqs = some (some q)) :
    groupLogLik genos freqs < 0 := by
  unfold groupLogLik
  refine sum_neg_of_mem _ ?_ (variantTerm freqs vg.1 vg.2) ?_ ?_
  · intro x hx
    rcases List.mem_map.mp hx with ⟨vg2, _, rfl⟩
    exact variantTerm_nonpos _ _ _
  · exact List.mem_map_of_mem _ hvg
  · exact variantTerm_neg _ _ _ q hq

/-! Lemmas about the `max` over the log-likelihood values. -/

theorem le_foldl_max_self (l : List ℝ) : ∀ x : ℝ, x ≤ l.foldl max x := by
  induction l with
  | nil => intro x; simp
  | cons z zs ih =>
    intro x
    rw [List.foldl_cons]
    exact le_trans (le_max_left x z) (ih (max x z))

theorem le_foldl_max_of_mem (l : List ℝ) : ∀ x y : ℝ, y ∈ l → y ≤ l.foldl max x := by
  induction l with
  | nil => intro x y hy; simp at hy
  | cons z zs ih =>
    intro x y hy
    rw [List.foldl_cons]
    rcases List.mem_cons.mp hy with h | h
    · subst h
      exact le_trans (le_max_right x y) (le_foldl_max_self zs (max x y))
    · exact ih (max x z) y h

theorem foldl_max_mem (l : List ℝ) : ∀ x : ℝ, l.foldl max x ∈ x :: l := by
  induction l with
  | nil => intro x; simp
  | cons z zs ih =>
    intro x
    rw [List.foldl_cons]
    rcases List.mem_cons.mp (ih (max x z)) with h | h
    · rw [h]
      rcases max_choice x z with h1 | h1 <;> rw [h1]
      · exact List.mem_cons_self _ _
      · exact List.mem_cons_of_mem _ (List.mem_cons_self _ _)
    · exact List.mem_cons_of_mem _ (List.mem_cons_of_mem _ h)

theorem le_listMax (l : List ℝ) (y : ℝ) (hy : y ∈ l) : y ≤ listMax l := by
  cases l with
  | nil => simp at hy
  | cons x xs =>
    unfold listMax
    rcases List.mem_cons.mp hy with h | h
    · subst h; exact le_foldl_max_self xs y
    · exact le_foldl_max_of_mem xs x y h

theorem listMax_mem (l : List ℝ) (h : l ≠ []) : listMax l ∈ l := by
  cases l with
  | nil => exact absurd rfl h
  | cons x xs =>
    unfold listMax
    exact foldl_max_mem xs x

/-! Lemmas about the normalisation step of `calculate_admixture`. -/

theorem mem_logLikelihoods (genos : List (Key × Nat)) (T : List (Key × List (Key × Option ℚ)))
    (z : Key × ℝ) (hz : z ∈ logLikelihoods genos T) :
    ∃ pf ∈ T, z = (pf.1, groupLogLik genos pf.2) := by
  unfold logLikelihoods at hz
  rcases mem_foldl_dinsert (fun pf => groupLogLik genos pf.2) T [] z hz with h | h
  · simp at h
  · exact h

theorem logLikelihoods_ne_nil (genos : List (Key × Nat))
    (T : List (Key × List (Key × Option ℚ))) (hT : T ≠ []) :
    logLikelihoods genos T ≠ [] :=
  foldl_dinsert_ne_nil _ T [] (Or.inr hT)

theorem logLikelihoods_value_nonpos (genos : List (Key × Nat))
    (T : List (Key × List (Key × Option ℚ))) (z : Key × ℝ)
    (hz : z ∈ logLikelihoods genos T) : z.2 ≤ 0 := by
  rcases mem_logLikelihoods genos T z hz with ⟨pf, _, rfl⟩
  exact groupLogLik_nonpos genos pf.2

theorem maxLogLik_nonpos (genos : List (Key × Nat)) (T : List (Key × List (Key × Option ℚ)))
    (hT : T ≠ []) : maxLogLik genos T ≤ 0 := by
  unfold maxLogLik
  have hne : (logLikelihoods genos T).map Prod.snd ≠ [] := by
    intro h
    exact logLikelihoods_ne_nil genos T hT (List.map_eq_nil_iff.mp h)
  rcases List.mem_map.mp (listMax_mem _ hne) with ⟨z, hz, hv⟩
  exact hv ▸ logLikelihoods_value_nonpos genos T z hz

theorem exists_likelihood_one (genos : List (Key × Nat))
    (T : List (Key × List (Key × Option ℚ))) (hT : T ≠ []) :
    ∃ z ∈ likelihoods genos T, z.2 = 1 := by
  have hne : (logLikelihoods genos T).map Prod.snd ≠ [] := by
    intro h
    exact logLikelihoods_ne_nil genos T hT (List.map_eq_nil_iff.mp h)
  rcases List.mem_map.mp (listMax_mem _ hne) with ⟨z, hz, hv⟩
  refine ⟨(z.1, Real.exp (z.2 - maxLogLik genos T)), ?_, ?_⟩
  · exact List.mem_map_of_mem _ hz
  · rw [hv]
    unfold maxLogLik
    rw [sub_self, Real.exp_zero]

theorem likelihoods_value_pos (genos : List (Key × Nat))
    (T : List (Key × List (Key × Option ℚ))) (z : Key × ℝ) (hz : z ∈ likelihoods genos T) :
    0 < z.2 := by
  unfold likelihoods at hz
  rcases List.mem_map.mp hz with ⟨pl, _, rfl⟩
  exact Real.exp_pos _

theorem totalLikelihood_ge_one (genos : List (Key × Nat))
    (T : List (Key × List (Key × Option ℚ))) (hT : T ≠ []) :
    1 ≤ totalLikelihood genos T := by
  rcases exists_likelihood_one genos T hT with ⟨z, hz, hv⟩
  unfold totalLikelihood
  have h1 : ∀ x ∈ (likelihoods genos T).map Prod.snd, (0:ℝ) ≤ x := by
    intro x hx
    rcases List.mem_map.mp hx with ⟨pl, hpl, rfl⟩
    exact le_of_lt (likelihoods_value_pos genos T pl hpl)
  have h2 : z.2 ∈ (likelihoods genos T).map Prod.snd := List.mem_map_of_mem _ hz
  exact hv ▸ List.single_le_sum h1 _ h2

theorem totalLikelihood_ne_zero (genos : List (Key × Nat))
    (T : List (Key × List (Key × Option ℚ))) (hT : T ≠ []) :
    totalLikelihood genos T ≠ 0 := by
  have := totalLikelihood_ge_one genos T hT
  intro h
  rw [h] at this
  linarith

theorem calculate_admixture_eq (genos : List (Key × Nat))
    (T : List (Key × List (Key × Option ℚ))) (hT : T ≠ []) :
    calculate_admixture genos T =
      (likelihoods genos T).map fun pl => (pl.1, pl.2 / totalLikelihood genos T) := by
  unfold calculate_admixture
  rw [if_neg (totalLikelihood_ne_zero genos T hT)]

theorem sum_map_div (l : List ℝ) (t : ℝ) : (l.map fun x => x / t).sum = l.sum / t := by
  induction l with
  | nil => simp
  | cons x xs ih => simp [ih, add_div]

theorem propSum_eq_one (genos : List (Key × Nat)) (T : List (Key × List (Key × Option ℚ)))
    (hT : T ≠ []) : ((calculate_admixture genos T).map Prod.snd).sum = 1 := by
  rw [calculate_admixture_eq genos T hT]
  have h1 : ((likelihoods genos T).map fun pl : Key × ℝ =>
      (pl.1, pl.2 / totalLikelihood genos T)).map Prod.snd =
      ((likelihoods genos T).map Prod.snd).map fun x => x / totalLikelihood genos T := by
    rw [List.map_map, List.map_map]
    rfl
  rw [h1, sum_map_div]
  exact div_self (totalLikelihood_ne_zero genos T hT)

theorem proportion_bounds (genos : List (Key × Nat)) (T : List (Key × List (Key × Option ℚ)))
    (hT : T ≠ []) (z : Key × ℝ) (hz : z ∈ calculate_admixture genos T) :
    0 ≤ z.2 ∧ z.2 ≤ 1 := by
  rw [calculate_admixture_eq genos T hT] at hz
  rcases List.mem_map.mp hz with ⟨pl, hpl, rfl⟩
  have hpos : 0 < pl.2 := likelihoods_value_pos genos T pl hpl
  have htot : 1 ≤ totalLikelihood genos T := totalLikelihood_ge_one genos T hT
  have hle : pl.2 ≤ totalLikelihood genos T := by
    unfold totalLikelihood
    refine List.single_le_sum ?_ _ (List.mem_map_of_mem _ hpl)
    intro x hx
    rcases List.mem_map.mp hx with ⟨pl2, hpl2, rfl⟩
    exact le_of_lt (likelihoods_value_pos genos T pl2 hpl2)
  constructor
  · exact le_of_lt (div_pos hpos (by linarith))
  · rw [div_le_one (by linarith)]
    exact hle

/-! Lemmas about the lexicographic order on keys and the two stable sorts. -/

theorem charToNat_inj (a b : Char) (h : a.toNat = b.toNat) : a = b :=
  Char.ext (UInt32.ext h)

theorem keyLt_asymm (a : Key) : ∀ b : Key, keyLt a b = true → keyLt b a = false := by
  induction a with
  | nil =>
    intro b h
    cases b with
    | nil => simp [keyLt] at h
    | cons y ys => simp [keyLt]
  | cons x xs ih =>
    intro b h
    cases b with
    | nil => simp [keyLt] at h
    | cons y ys =>
      unfold keyLt at h ⊢
      by_cases h1 : x.toNat < y.toNat
      · have h2 : ¬ y.toNat < x.toNat := Nat.lt_asymm h1
        simp [h1, h2]
      · by_cases h2 : y.toNat < x.toNat
        · rw [if_neg h1, if_pos h2] at h
          exact absurd h (by simp)
        · rw [if_neg h1, if_neg h2] at h
          simp [h1, h2, ih ys h]

theorem keyLt_linear (a : Key) : ∀ b c : Key, keyLt a c = true →
    keyLt a b = true ∨ keyLt b c = true := by
  induction a with
  | nil =>
    intro b c h
    cases c with
    | nil => simp [keyLt] at h
    | cons z zs =>
      cases b with
      | nil => exact Or.inr h
      | cons y ys => exact Or.inl (by simp [keyLt])
  | cons x xs ih =>
    intro b c h
    cases c with
    | nil => simp [keyLt] at h
    | cons z zs =>
      cases b with
      | nil => exact Or.inr (by simp [keyLt])
      | cons y ys =>
        by_cases h1 : x.toNat < y.toNat
        · exact Or.inl (by unfold keyLt; rw [if_pos h1])
        · by_cases h2 : y.toNat < x.toNat
          · refine Or.inr ?_
            unfold keyLt at h ⊢
            by_cases h3 : x.toNat < z.toNat
            · rw [if_pos (lt_trans h2 h3)]
            · by_cases h4 : z.toNat < x.toNat
              · rw [if_neg h3, if_pos h4] at h
                exact absurd h (by simp)
              · have hxz : x.toNat = z.toNat := le_antisymm (le_of_not_lt h4) (le_of_not_lt h3)
                rw [if_pos (hxz ▸ h2)]
          · have hxy : x.toNat = y.toNat := le_antisymm (le_of_not_lt h2) (le_of_not_lt h1)
            unfold keyLt at h
            by_cases h3 : x.toNat < z.toNat
            · refine Or.inr ?_
              unfold keyLt
              rw [if_pos (hxy ▸ h3)]
            · by_cases h4 : z.toNat < x.toNat
              · rw [if_neg h3, if_pos h4] at h
                exact absurd h (by simp)
              · have hxz : x.toNat = z.toNat := le_antisymm (le_of_not_lt h4) (le_of_not_lt h3)
                have hyz : y.toNat = z.toNat := hxy.symm.trans hxz
                rw [if_neg h3, if_neg h4] at h
                rcases ih ys zs h with h5 | h5
                · refine Or.inl ?_
                  unfold keyLt
                  rw [if_neg h1, if_neg h2]
                  exact h5
                · refine Or.inr ?_
                  unfold keyLt
                  have hnyz : ¬ y.toNat < z.toNat := by rw [hyz]; exact lt_irrefl _
                  have hnzy : ¬ z.toNat < y.toNat := by rw [hyz]; exact lt_irrefl _
                  rw [if_neg hnyz, if_neg hnzy]
                  exact h5

theorem keyLt_trichotomy (a : Key) : ∀ b : Key, keyLt a b = true ∨ a = b ∨ keyLt b a = true := by
  induction a with
  | nil =>
    intro b
    cases b with
    | nil => exact Or.inr (Or.inl rfl)
    | cons y ys => exact Or.inl (by simp [keyLt])
  | cons x xs ih =>
    intro b
    cases b with
    | nil => exact Or.inr (Or.inr (by simp [keyLt]))
    | cons y ys =>
      by_cases h1 : x.toNat < y.toNat
      · exact Or.inl (by unfold keyLt; rw [if_pos h1])
      · by_cases h2 : y.toNat < x.toNat
        · exact Or.inr (Or.inr (by unfold keyLt; rw [if_pos h2]))
        · have hxy : x = y := charToNat_inj _ _ (le_antisymm (le_of_not_lt h2) (le_of_not_lt h1))
          rcases ih ys with h3 | h3 | h3
          · exact Or.inl (by unfold keyLt; rw [if_neg h1, if_neg h2]; exact h3)
          · exact Or.inr (Or.inl (by rw [hxy, h3]))
          · refine Or.inr (Or.inr ?_)
            unfold keyLt
            rw [if_neg (hxy ▸ h2), if_neg (hxy ▸ h1)]
            exact h3

theorem insertAsc_perm (x : Key) (l : List Key) : (insertAsc x l).Perm (x :: l) := by
  induction l with
  | nil => exact List.Perm.refl _
  | cons y ys ih =>
    unfold insertAsc
    by_cases h : keyLt y x = true
    · rw [if_pos h]
      exact (List.Perm.cons y ih).trans (List.Perm.swap x y ys)
    · rw [if_neg h]

theorem sortKeys_perm (l : List Key) : (sortKeys l).Perm l := by
  induction l with
  | nil => exact List.Perm.refl _
  | cons x xs ih =>
    exact (insertAsc_perm x (sortKeys xs)).trans (List.Perm.cons x ih)

theorem mem_sortKeys (a : Key) (l : List Key) : a ∈ sortKeys l ↔ a ∈ l :=
  (sortKeys_perm l).mem_iff

theorem sortKeys_nodup (l : List Key) (h : l.Nodup) : (sortKeys l).Nodup :=
  (sortKeys_perm l).nodup_iff.mpr h

theorem insertAsc_sorted (x : Key) (l : List Key)
    (hl : l.Pairwise fun a b => keyLt b a = false) :
    (insertAsc x l).Pairwise fun a b => keyLt b a = false := by
  induction l with
  | nil => exact List.pairwise_singleton _ _
  | cons y ys ih =>
    rcases List.pairwise_cons.mp hl with ⟨hy, hys⟩
    unfold insertAsc
    by_cases h : keyLt y x = true
    · rw [if_pos h]
      refine List.pairwise_cons.mpr ⟨?_, ih hys⟩
      intro z hz
      rcases List.mem_cons.mp ((insertAsc_perm x ys).mem_iff.mp hz) with h1 | h1
      · rw [h1]
        exact keyLt_asymm y x h
      · exact hy z h1
    · have hf : keyLt y x = false := Bool.eq_false_iff.mpr h
      rw [if_neg h]
      refine List.pairwise_cons.mpr ⟨?_, hl⟩
      intro z hz
      rcases List.mem_cons.mp hz with h1 | h1
      · rw [h1]
        exact hf
      · by_cases h2 : keyLt z x = true
        · exfalso
          rcases keyLt_linear z y x h2 with h3 | h3
          · rw [hy z h1] at h3
            exact Bool.false_ne_true h3
          · rw [hf] at h3
            exact Bool.false_ne_true h3
        · exact Bool.eq_false_iff.mpr h2

theorem sortKeys_sorted (l : List Key) :
    (sortKeys l).Pairwise fun a b => keyLt b a = false := by
  induction l with
  | nil => exact List.Pairwise.nil
  | cons x xs ih => exact insertAsc_sorted x (sortKeys xs) ih

theorem sortKeys_strict_sorted (l : List Key) (h : l.Nodup) :
    (sortKeys l).Pairwise fun a b => keyLt a b = true := by
  have h1 := sortKeys_sorted l
  have h2 := sortKeys_nodup l h
  have := List.Pairwise.and h1 h2
  refine this.imp ?_
  rintro a b ⟨hab, hne⟩
  rcases keyLt_trichotomy a b with h3 | h3 | h3
  · exact h3
  · exact absurd h3 hne
  · exact absurd h3 (Bool.eq_false_iff.mp hab ∘ id)

theorem insertDesc_perm (x : Key × ℝ) (l : List (Key × ℝ)) :
    (insertDesc x l).Perm (x :: l) := by
  induction l with
  | nil => exact List.Perm.refl _
  | cons y ys ih =>
    unfold insertDesc
    by_cases h : y.2 ≤ x.2
    · rw [if_pos h]
    · rw [if_neg h]
      exact (List.Perm.cons y ih).trans (List.Perm.swap x y ys)

theorem sortedProportions_perm (l : List (Key × ℝ)) : (sortedProportions l).Perm l := by
  induction l with
  | nil => exact List.Perm.refl _
  | cons x xs ih =>
    exact (insertDesc_perm x (sortedProportions xs)).trans (List.Perm.cons x ih)

theorem insertDesc_pairwise (x : Key × ℝ) (l : List (Key × ℝ))
    (hl : l.Pairwise fun a b => b.2 < a.2 ∨ (a.2 = b.2 ∧ keyLt a.1 b.1 = true))
    (hx : ∀ y ∈ l, keyLt x.1 y.1 = true) :
    (insertDesc x l).Pairwise fun a b => b.2 < a.2 ∨ (a.2 = b.2 ∧ keyLt a.1 b.1 = true) := by
  induction l with
  | nil => exact List.pairwise_singleton _ _
  | cons y ys ih =>
    rcases List.pairwise_cons.mp hl with ⟨hy, hys⟩
    unfold insertDesc
    by_cases h : y.2 ≤ x.2
    · rw [if_pos h]
      refine List.pairwise_cons.mpr ⟨?_, hl⟩
      intro z hz
      rcases List.mem_cons.mp hz with h1 | h1
      · subst h1
        rcases lt_or_eq_of_le h with h2 | h2
        · exact Or.inl h2
        · exact Or.inr ⟨h2.symm, hx z (List.mem_cons_self _ _)⟩
      · rcases hy z h1 with h2 | h2
        · exact Or.inl (lt_of_lt_of_le h2 h)
        · rcases lt_or_eq_of_le h with h3 | h3
          · exact Or.inl (h2.1 ▸ h3)
          · exact Or.inr ⟨h3.symm.trans h2.1, hx z (List.mem_cons_of_mem _ h1)⟩
    · rw [if_neg h]
      refine List.pairwise_cons.mpr ⟨?_, ?_⟩
      · intro z hz
        rcases List.mem_cons.mp ((insertDesc_perm x ys).mem_iff.mp hz) with h1 | h1
        · rw [h1]
          exact Or.inl (lt_of_not_le h)
        · exact hy z h1
      · exact ih hys (fun z hz => hx z (List.mem_cons_of_mem _ hz))

theorem sortedProportions_pairwise (l : List (Key × ℝ))
    (hl : l.Pairwise fun a b => keyLt a.1 b.1 = true) :
    (sortedProportions l).Pairwise
      fun a b => b.2 < a.2 ∨ (a.2 = b.2 ∧ keyLt a.1 b.1 = true) := by
  induction l with
  | nil => exact List.Pairwise.nil
  | cons x xs ih =>
    rcases List.pairwise_cons.mp hl with ⟨hx, hxs⟩
    refine insertDesc_pairwise x (sortedProportions xs) (ih hxs) ?_
    intro y hy
    exact hx y ((sortedProportions_perm xs).mem_iff.mp hy)

/-! Lemmas about the aggregation step. -/

theorem popSums_aux (pm : List (Key × Key)) (g : Key) (row : List (Key × ℚ)) : ∀ a : ℚ,
    row.foldl (fun s er => if dlookup er.1 pm = some g then s + er.2 else s) a
      = a + ((qualifyingPops row pm g).map Prod.snd).sum := by
  induction row with
  | nil => intro a; simp [qualifyingPops]
  | cons er rest ih =>
    intro a
    rw [List.foldl_cons]
    by_cases h : dlookup er.1 pm = some g
    · rw [if_pos h, ih (a + er.2)]
      unfold qualifyingPops
      rw [List.filter_cons_of_pos (by simpa using h)]
      unfold qualifyingPops at *
      simp [add_assoc]
    · rw [if_neg h, ih a]
      unfold qualifyingPops
      rw [List.filter_cons_of_neg (by simpa using h)]

theorem popSums_eq (row : List (Key × ℚ)) (pm : List (Key × Key)) (g : Key) :
    popSums row pm g = ((qualifyingPops row pm g).map Prod.snd).sum := by
  unfold popSums
  rw [popSums_aux pm g row 0, zero_add]

theorem popCounts_aux (pm : List (Key × Key)) (g : Key) (row : List (Key × ℚ)) : ∀ a : Nat,
    row.foldl (fun n er => if dlookup er.1 pm = some g then n + 1 else n) a
      = a + (qualifyingPops row pm g).length := by
  induction row with
  | nil => intro a; simp [qualifyingPops]
  | cons er rest ih =>
    intro a
    rw [List.foldl_cons]
    by_cases h : dlookup er.1 pm = some g
    · rw [if_pos h, ih (a + 1)]
      unfold qualifyingPops
      rw [List.filter_cons_of_pos (by simpa using h)]
      unfold qualifyingPops at *
      simp [Nat.add_assoc, Nat.add_comm 1]
    · rw [if_neg h, ih a]
      unfold qualifyingPops
      rw [List.filter_cons_of_neg (by simpa using h)]

theorem popCounts_eq (row : List (Key × ℚ)) (pm : List (Key × Key)) (g : Key) :
    popCounts row pm g = (qualifyingPops row pm g).length := by
  unfold popCounts
  rw [popCounts_aux pm g row 0, Nat.zero_add]

theorem aggVal_eq_specMean (row : List (Key × ℚ)) (pm : List (Key × Key)) (g : Key) :
    aggVal row pm g = specMean row pm g := by
  unfold aggVal specMean
  rw [popCounts_eq, popSums_eq]
  rcases Nat.eq_zero_or_pos (qualifyingPops row pm g).length with h | h
  · rw [if_neg (by rw [h]; exact lt_irrefl 0), if_pos h]
  · rw [if_pos h, if_neg (Nat.pos_iff_ne_zero.mp h)]

theorem aggregate_keys (R : List (Key × List (Key × ℚ))) (pm : List (Key × Key)) :
    (aggregate_frequencies R pm).map Prod.fst = sortedMajors pm := by
  unfold aggregate_frequencies
  rw [List.map_map]
  exact List.map_id _

theorem aggregate_row (R : List (Key × List (Key × ℚ))) (pm : List (Key × Key))
    (hR : (R.map Prod.fst).Nodup) (g : Key) (grow : List (Key × Option ℚ))
    (h : dlookup g (aggregate_frequencies R pm) = some grow) :
    grow = R.map fun vr => (vr.1, aggVal vr.2 pm g) := by
  unfold aggregate_frequencies at h
  have h1 := dlookup_map_pair g
    (fun g => R.foldl (fun grow vr => dinsert vr.1 (aggVal vr.2 pm g) grow) [])
    (sortedMajors pm) grow h
  rw [h1]
  exact foldl_dinsert_eq_map (fun vr => aggVal vr.2 pm g) R hR

theorem logLikelihoods_eq_map (genos : List (Key × Nat))
    (T : List (Key × List (Key × Option ℚ))) (hT : (T.map Prod.fst).Nodup) :
    logLikelihoods genos T = T.map fun pf => (pf.1, groupLogLik genos pf.2) :=
  foldl_dinsert_eq_map (fun pf => groupLogLik genos pf.2) T hT

/-! Claim theorems. -/

/-- C4: for every genotype map and every non-empty group frequency table,
every proportion returned by `calculate_admixture` lies in [0, 1], and the sum
of all returned proportions is within 1e-6 of 1 (in exact real arithmetic the
sum is exactly 1; the degenerate all-zero branch is never taken for a
non-empty table, see C7). -/
theorem claim_C4 (genotypes : List (Key × Nat)) (T : List (Key × List (Key × Option ℚ)))
    (hT : T ≠ []) :
    (∀ z ∈ calculate_admixture genotypes T, 0 ≤ z.2 ∧ z.2 ≤ 1) ∧
    |((calculate_admixture genotypes T).map Prod.snd).sum - 1| ≤ 1 / 1000000 := by
  refine ⟨fun z hz => proportion_bounds genotypes T hT z hz, ?_⟩
  rw [propSum_eq_one genotypes T hT]
  norm_num

/-- Witness for C4 at the concrete one-group table. -/
theorem claim_C4_witness :
    ([(("A").data, ([] : List (Key × Option ℚ)))] ≠ []) ∧
    ((∀ z ∈ calculate_admixture [] [("A".data, [])], 0 ≤ z.2 ∧ z.2 ≤ 1) ∧
      |((calculate_admixture [] [("A".data, [])]).map Prod.snd).sum - 1| ≤ 1 / 1000000) :=
  ⟨List.cons_ne_nil _ _, claim_C4 [] [("A".data, [])] (List.cons_ne_nil _ _)⟩

/-- C6: `calculate_admixture` never evaluates `log(0)`: the clamped frequency
lies in [ε, 1−ε] with ε = 1e-9, and the argument handed to `Real.log` by
`variantTerm` — `logArg`, the Hardy-Weinberg probability of the clamped
frequency floored at ε — is strictly positive for every genotype and every
stored frequency, including exactly 0 and exactly 1. -/
theorem claim_C6 (g : Nat) (q : ℚ) :
    0 < logArg g q ∧ epsilon ≤ clampFreq q ∧ clampFreq q ≤ 1 - epsilon ∧
    ∀ (freqs : List (Key × Option ℚ)) (v : Key), dlookup v freqs = some (some q) →
      variantTerm freqs v g = Real.log (logArg g q) := by
  refine ⟨logArg_pos g q, clampFreq_lower q, clampFreq_upper q, ?_⟩
  intro freqs v h
  unfold variantTerm
  rw [h]

/-- Witness for C6 at genotype 2 and the extreme frequency 0. -/
theorem claim_C6_witness :
    0 < logArg 2 0 ∧
    (dlookup "v".data [("v".data, some (0 : ℚ))] = some (some (0 : ℚ))) ∧
    variantTerm [("v".data, some (0 : ℚ))] "v".data 2 = Real.log (logArg 2 0) :=
  ⟨(claim_C6 2 0).1, rfl, (claim_C6 2 0).2.2.2 [("v".data, some 0)] "v".data rfl⟩

/-- C7: for every non-empty group frequency table every accumulated
log-likelihood is ≤ 0, the maximal group rescales to likelihood exp 0 = 1, the
total rescaled likelihood is ≥ 1 and in particular non-zero, so the
`total_likelihood == 0` branch of `calculate_admixture` is never taken and the
returned proportions sum to exactly 1. -/
theorem claim_C7 (genotypes : List (Key × Nat)) (T : List (Key × List (Key × Option ℚ)))
    (hT : T ≠ []) :
    (∀ z ∈ logLikelihoods genotypes T, z.2 ≤ 0) ∧
    (∃ z ∈ likelihoods genotypes T, z.2 = 1) ∧
    1 ≤ totalLikelihood genotypes T ∧
    totalLikelihood genotypes T ≠ 0 ∧
    calculate_admixture genotypes T =
      ((likelihoods genotypes T).map fun pl => (pl.1, pl.2 / totalLikelihood genotypes T)) ∧
    ((calculate_admixture genotypes T).map Prod.snd).sum = 1 :=
  ⟨fun z hz => logLikelihoods_value_nonpos genotypes T z hz,
   exists_likelihood_one genotypes T hT,
   totalLikelihood_ge_one genotypes T hT,
   totalLikelihood_ne_zero genotypes T hT,
   calculate_admixture_eq genotypes T hT,
   propSum_eq_one genotypes T hT⟩

/-- Witness for C7 at the concrete one-group table. -/
theorem claim_C7_witness :
    ([(("B").data, ([] : List (Key × Option ℚ)))] ≠ []) ∧
    ((∀ z ∈ logLikelihoods [] [("B".data, [])], z.2 ≤ 0) ∧
      (∃ z ∈ likelihoods [] [("B".data, [])], z.2 = 1) ∧
      1 ≤ totalLikelihood [] [("B".data, [])] ∧
      totalLikelihood [] [("B".data, [])] ≠ 0 ∧
      calculate_admixture [] [("B".data, [])] =
        ((likelihoods [] [("B".data, [])]).map
          fun pl => (pl.1, pl.2 / totalLikelihood [] [("B".data, [])])) ∧
      ((calculate_admixture [] [("B".data, [])]).map Prod.snd).sum = 1) :=
  ⟨List.cons_ne_nil _ _, claim_C7 [] [("B".data, [])] (List.cons_ne_nil _ _)⟩

/-- C5: for every fine-population frequency table (with the distinct variant
keys a Python dict guarantees) and every group mapping,
`aggregate_frequencies` covers exactly the cross-product of the mapping's
value set (as group keys) and the table's variants (as row keys), and each
cell holds the unweighted arithmetic mean over exactly the fine populations
that appear as a column for that variant and map to that group — the explicit
undefined marker, not zero, when no such population exists. -/
theorem claim_C5 (R : List (Key × List (Key × ℚ))) (pm : List (Key × Key))
    (hR : (R.map Prod.fst).Nodup) :
    (aggregate_frequencies R pm).map Prod.fst = sortedMajors pm ∧
    (∀ g : Key, g ∈ (aggregate_frequencies R pm).map Prod.fst ↔ g ∈ pm.map Prod.snd) ∧
    ∀ g grow, dlookup g (aggregate_frequencies R pm) = some grow →
      grow.map Prod.fst = R.map Prod.fst ∧
      ∀ vr ∈ R, dlookup vr.1 grow = some (specMean vr.2 pm g) := by
  refine ⟨aggregate_keys R pm, ?_, ?_⟩
  · intro g
    rw [aggregate_keys R pm]
    unfold sortedMajors
    rw [mem_sortKeys]
    exact List.mem_dedup
  · intro g grow h
    have hgrow := aggregate_row R pm hR g grow h
    subst hgrow
    constructor
    · rw [List.map_map]
      rfl
    · intro vr hvr
      have hmem : (vr.1, aggVal vr.2 pm g) ∈ R.map fun vr => (vr.1, aggVal vr.2 pm g) :=
        List.mem_map_of_mem _ hvr
      have hkeys : ((R.map fun vr => (vr.1, aggVal vr.2 pm g)).map Prod.fst).Nodup := by
        rw [List.map_map]
        exact hR
      have := dlookup_mem_of_nodup _ _ hkeys hmem
      rw [this, aggVal_eq_specMean]

/-- Witness for C5 at a one-variant, one-population table. -/
theorem claim_C5_witness :
    (([(("v").data, [(("x").data, (1:ℚ))])].map Prod.fst).Nodup) ∧
    ((aggregate_frequencies [("v".data, [("x".data, (1:ℚ))])] [("x".data, "G".data)]).map
        Prod.fst = sortedMajors [("x".data, "G".data)] ∧
      (∀ g : Key, g ∈ (aggregate_frequencies [("v".data, [("x".data, (1:ℚ))])]
          [("x".data, "G".data)]).map Prod.fst ↔
          g ∈ [("x".data, "G".data)].map Prod.snd) ∧
      ∀ g grow, dlookup g (aggregate_frequencies [("v".data, [("x".data, (1:ℚ))])]
          [("x".data, "G".data)]) = some grow →
        grow.map Prod.fst = [("v".data, [("x".data, (1:ℚ))])].map Prod.fst ∧
        ∀ vr ∈ [("v".data, [("x".data, (1:ℚ))])],
          dlookup vr.1 grow = some (specMean vr.2 [("x".data, "G".data)] g)) :=
  ⟨by simp, claim_C5 [("v".data, [("x".data, (1:ℚ))])] [("x".data, "G".data)] (by simp)⟩

/-- C1: evaluation of `calculate_admixture` at a failing input for the claim.
Group B's frequency entry is the undefined marker for the only sample variant,
so the claim demands proportion 0.0 for B; the code instead gives B
log-likelihood 0.0 — the maximum, since group A's log-likelihood log(1/2) is
negative — so B receives the largest proportion, 2/3. -/
theorem claim_C1 :
    calculate_admixture [("v".data, 1)]
        [("A".data, [("v".data, some ((1:ℚ)/2))]), ("B".data, [("v".data, (none : Option ℚ))])]
      = [("A".data, (1:ℝ)/3), ("B".data, (2:ℝ)/3)] ∧
    dlookup "B".data
        (calculate_admixture [("v".data, 1)]
          [("A".data, [("v".data, some ((1:ℚ)/2))]), ("B".data, [("v".data, (none : Option ℚ))])])
      ≠ some (0:ℝ) := by
  have hT : ([("A".data, [("v".data, some ((1:ℚ)/2))]),
      ("B".data, [("v".data, (none : Option ℚ))])] :
      List (Key × List (Key × Option ℚ))) ≠ [] := List.cons_ne_nil _ _
  have hKeys : (([("A".data, [("v".data, some ((1:ℚ)/2))]),
      ("B".data, [("v".data, (none : Option ℚ))])] :
      List (Key × List (Key × Option ℚ))).map Prod.fst).Nodup := by decide
  have hb : groupLogLik [("v".data, 1)] [("v".data, (none : Option ℚ))] = 0 := by
    have h0 : variantTerm [("v".data, (none : Option ℚ))] "v".data 1 = 0 := rfl
    unfold groupLogLik
    simp only [List.map_cons, List.map_nil, List.sum_cons, List.sum_nil, add_zero]
    exact h0
  have haeq : groupLogLik [("v".data, 1)] [("v".data, some ((1:ℚ)/2))]
      = Real.log (logArg 1 ((1:ℚ)/2)) := by
    have h0 : variantTerm [("v".data, some ((1:ℚ)/2))] "v".data 1
        = Real.log (logArg 1 ((1:ℚ)/2)) := rfl
    unfold groupLogLik
    simp only [List.map_cons, List.map_nil, List.sum_cons, List.sum_nil, add_zero]
    exact h0
  have hclamp : clampFreq ((1:ℚ)/2) = 1/2 := by
    unfold clampFreq
    have hc : (((1:ℚ)/2 : ℚ) : ℝ) = 1/2 := by norm_num
    rw [hc, min_eq_right (by norm_num [epsilon]), max_eq_right (by norm_num [epsilon])]
  have hlogArg : logArg 1 ((1:ℚ)/2) = 1/2 := by
    unfold logArg
    rw [hclamp]
    unfold hwProb
    norm_num [epsilon]
  have hlog_neg : Real.log (logArg 1 ((1:ℚ)/2)) < 0 := by
    rw [hlogArg]
    exact Real.log_neg (by norm_num) (by norm_num)
  have hLL : logLikelihoods [("v".data, 1)]
      [("A".data, [("v".data, some ((1:ℚ)/2))]), ("B".data, [("v".data, (none : Option ℚ))])]
      = [("A".data, Real.log (logArg 1 ((1:ℚ)/2))), ("B".data, 0)] := by
    rw [logLikelihoods_eq_map _ _ hKeys]
    simp only [List.map_cons, List.map_nil]
    rw [haeq, hb]
  have hmax : maxLogLik [("v".data, 1)]
      [("A".data, [("v".data, some ((1:ℚ)/2))]), ("B".data, [("v".data, (none : Option ℚ))])]
      = 0 := by
    unfold maxLogLik
    rw [hLL]
    show max (Real.log (logArg 1 ((1:ℚ)/2))) 0 = 0
    exact max_eq_right (le_of_lt hlog_neg)
  have hlik : likelihoods [("v".data, 1)]
      [("A".data, [("v".data, some ((1:ℚ)/2))]), ("B".data, [("v".data, (none : Option ℚ))])]
      = [("A".data, (1:ℝ)/2), ("B".data, 1)] := by
    unfold likelihoods
    rw [hLL, hmax]
    simp only [List.map_cons, List.map_nil]
    rw [sub_zero, sub_zero, hlogArg, Real.exp_log (by norm_num), Real.exp_zero]
  have htot : totalLikelihood [("v".data, 1)]
      [("A".data, [("v".data, some ((1:ℚ)/2))]), ("B".data, [("v".data, (none : Option ℚ))])]
      = 3/2 := by
    unfold totalLikelihood
    rw [hlik]
    simp only [List.map_cons, List.map_nil, List.sum_cons, List.sum_nil]
    norm_num
  have hmain : calculate_admixture [("v".data, 1)]
      [("A".data, [("v".data, some ((1:ℚ)/2))]), ("B".data, [("v".data, (none : Option ℚ))])]
      = [("A".data, (1:ℝ)/3), ("B".data, (2:ℝ)/3)] := by
    rw [calculate_admixture_eq _ _ hT, hlik, htot]
    simp only [List.map_cons, List.map_nil]
    norm_num
  have hAB : ¬ (("A".data : Key) = "B".data) := by decide
  have hBB : (("B".data : Key) = "B".data) := rfl
  have hlook : dlookup "B".data [("A".data, (1:ℝ)/3), ("B".data, (2:ℝ)/3)]
      = some ((2:ℝ)/3) := by
    show (if ("A".data : Key) = "B".data then some ((1:ℝ)/3)
      else if ("B".data : Key) = "B".data then some ((2:ℝ)/3) else none) = some ((2:ℝ)/3)
    rw [if_neg hAB, if_pos hBB]
  refine ⟨hmain, ?_⟩
  rw [hmain, hlook]
  intro hc
  rw [Option.some_inj] at hc
  norm_num at hc

/-- C3: evaluation of `calculate_admixture` at a no-overlap input. The sample's
only variant is absent from both groups' (empty) frequency rows, so the claim
demands the all-zero proportion vector; the code instead gives every group
log-likelihood 0.0, rescaled likelihood 1.0, and hence the uniform proportion
1/2, which is non-zero. -/
theorem claim_C3 :
    calculate_admixture [("w".data, 1)]
        [("A".data, ([] : List (Key × Option ℚ))), ("B".data, [])]
      = [("A".data, (1:ℝ)/2), ("B".data, (1:ℝ)/2)] ∧
    ∃ z ∈ calculate_admixture [("w".data, 1)]
        [("A".data, ([] : List (Key × Option ℚ))), ("B".data, [])], z.2 ≠ 0 := by
  have hT : ([("A".data, ([] : List (Key × Option ℚ))), ("B".data, [])] :
      List (Key × List (Key × Option ℚ))) ≠ [] := List.cons_ne_nil _ _
  have hKeys : (([("A".data, ([] : List (Key × Option ℚ))), ("B".data, [])] :
      List (Key × List (Key × Option ℚ))).map Prod.fst).Nodup := by decide
  have hb : groupLogLik [("w".data, 1)] ([] : List (Key × Option ℚ)) = 0 := by
    have h0 : variantTerm ([] : List (Key × Option ℚ)) "w".data 1 = 0 := rfl
    unfold groupLogLik
    simp only [List.map_cons, List.map_nil, List.sum_cons, List.sum_nil, add_zero]
    exact h0
  have hLL : logLikelihoods [("w".data, 1)]
      [("A".data, ([] : List (Key × Option ℚ))), ("B".data, [])]
      = [("A".data, (0:ℝ)), ("B".data, 0)] := by
    rw [logLikelihoods_eq_map _ _ hKeys]
    simp only [List.map_cons, List.map_nil]
    rw [hb]
  have hmax : maxLogLik [("w".data, 1)]
      [("A".data, ([] : List (Key × Option ℚ))), ("B".data, [])] = 0 := by
    unfold maxLogLik
    rw [hLL]
    show max (0:ℝ) 0 = 0
    exact max_self 0
  have hlik : likelihoods [("w".data, 1)]
      [("A".data, ([] : List (Key × Option ℚ))), ("B".data, [])]
      = [("A".data, (1:ℝ)), ("B".data, 1)] := by
    unfold likelihoods
    rw [hLL, hmax]
    simp only [List.map_cons, List.map_nil]
    rw [sub_zero, Real.exp_zero]
  have htot : totalLikelihood [("w".data, 1)]
      [("A".data, ([] : List (Key × Option ℚ))), ("B".data, [])] = 2 := by
    unfold totalLikelihood
    rw [hlik]
    simp only [List.map_cons, List.map_nil, List.sum_cons, List.sum_nil]
    norm_num
  have hmain : calculate_admixture [("w".data, 1)]
      [("A".data, ([] : List (Key × Option ℚ))), ("B".data, [])]
      = [("A".data, (1:ℝ)/2), ("B".data, (1:ℝ)/2)] := by
    rw [calculate_admixture_eq _ _ hT, hlik, htot]
    simp only [List.map_cons, List.map_nil]
  refine ⟨hmain, ?_⟩
  rw [hmain]
  exact ⟨("A".data, (1:ℝ)/2), List.mem_cons_self _ _, by norm_num⟩

theorem dlookup_some_mem {α : Type} (k : Key) (l : List (Key × α)) (x : α)
    (h : dlookup k l = some x) : ∃ kv ∈ l, kv.2 = x := by
  induction l with
  | nil => simp [dlookup] at h
  | cons kv rest ih =>
    unfold dlookup at h
    by_cases hk : kv.1 = k
    · rw [if_pos hk] at h
      exact ⟨kv, List.mem_cons_self _ _, Option.some_inj.mp h⟩
    · rw [if_neg hk] at h
      rcases ih h with ⟨kv2, h1, h2⟩
      exact ⟨kv2, List.mem_cons_of_mem _ h1, h2⟩

theorem variantTerm_zero_of_all_none (freqs : List (Key × Option ℚ)) (v : Key) (g : Nat)
    (h : ∀ er ∈ freqs, er.2 = none) : variantTerm freqs v g = 0 := by
  unfold variantTerm
  cases hd : dlookup v freqs with
  | none => rfl
  | some x =>
    rcases dlookup_some_mem v freqs x hd with ⟨kv, h1, h2⟩
    rw [h kv h1] at h2
    rw [← h2]

theorem groupLogLik_zero_of_all_none (genos : List (Key × Nat))
    (freqs : List (Key × Option ℚ)) (h : ∀ er ∈ freqs, er.2 = none) :
    groupLogLik genos freqs = 0 := by
  unfold groupLogLik
  refine List.sum_eq_zero ?_
  intro x hx
  rcases List.mem_map.mp hx with ⟨vg, _, rfl⟩
  exact variantTerm_zero_of_all_none freqs vg.1 vg.2 h

theorem dlookup_cons_other {α : Type} (k k2 : Key) (v : α) (l : List (Key × α))
    (h : ¬ k2 = k) : dlookup k ((k2, v) :: l) = dlookup k l := by
  show (if k2 = k then some v else dlookup k l) = dlookup k l
  rw [if_neg h]

theorem dlookup_cons_same {α : Type} (k : Key) (v : α) (l : List (Key × α)) :
    dlookup k ((k, v) :: l) = some v := by
  show (if k = k then some v else dlookup k l) = some v
  rw [if_pos rfl]

set_option maxRecDepth 1000000 in
/-- C2: evaluation of the full pipeline on the bundled toy data. The source's
split calls use the two-character separators backslash-n and backslash-t
(written `split('\\n')` / `split('\\t')`), which never occur in the bundled
strings, so `parse_vcf` sees the whole stripped content as one comment "line"
and extracts no genotypes, `parse_reference` extracts no variants,
aggregation yields seven groups with empty rows, and `calculate_admixture`
returns exactly 1/7 for every group: East Asian is not the group with the
largest proportion (all seven are tied), European and African do not receive
smaller shares, and the three named proportions sum to 3/7, not 1.0. -/
theorem claim_C2 :
    parse_vcf sample_vcf_data = some [] ∧
    parse_reference reference_tsv_data = some [] ∧
    aggregate_frequencies [] POPULATION_MAP = emptyAgg ∧
    calculate_admixture [] emptyAgg =
      [("African".data, (1:ℝ)/7), ("Americas".data, 1/7), ("Central/South Asian".data, 1/7),
       ("East Asian".data, 1/7), ("European".data, 1/7), ("Middle Eastern".data, 1/7),
       ("Oceanian".data, 1/7)] := by
  refine ⟨by decide, by decide, by decide, ?_⟩
  have hT : emptyAgg ≠ [] := by
    unfold emptyAgg
    exact List.cons_ne_nil _ _
  have hKeys : (emptyAgg.map Prod.fst).Nodup := by decide
  have h0 : groupLogLik [] ([] : List (Key × Option ℚ)) = 0 := rfl
  have hLLe : logLikelihoods [] emptyAgg =
      [("African".data, (0:ℝ)), ("Americas".data, 0), ("Central/South Asian".data, 0),
       ("East Asian".data, 0), ("European".data, 0), ("Middle Eastern".data, 0),
       ("Oceanian".data, 0)] := by
    rw [logLikelihoods_eq_map _ _ hKeys]
    unfold emptyAgg
    simp only [List.map_cons, List.map_nil]
    rw [h0]
  have hmax : maxLogLik [] emptyAgg = 0 := by
    unfold maxLogLik
    rw [hLLe]
    show List.foldl max (0:ℝ) [0, 0, 0, 0, 0, 0] = 0
    simp only [List.foldl_cons, List.foldl_nil, max_self]
  have hlik : likelihoods [] emptyAgg =
      [("African".data, (1:ℝ)), ("Americas".data, 1), ("Central/South Asian".data, 1),
       ("East Asian".data, 1), ("European".data, 1), ("Middle Eastern".data, 1),
       ("Oceanian".data, 1)] := by
    unfold likelihoods
    rw [hLLe, hmax]
    simp only [List.map_cons, List.map_nil, sub_zero]
    rw [Real.exp_zero]
  have htot : totalLikelihood [] emptyAgg = 7 := by
    unfold totalLikelihood
    rw [hlik]
    simp only [List.map_cons, List.map_nil, List.sum_cons, List.sum_nil]
    norm_num
  rw [calculate_admixture_eq _ _ hT, hlik, htot]
  simp only [List.map_cons, List.map_nil]

/-- C8: evaluation at a failing input for the claim. The genotype
classification chain itself (lines 112-117) does send "0/0"/"0|0" to 0, the
recognised heterozygous encodings "0/1"/"0|1"/"1|0" to 1, "1/1"/"1|1" to 2
and anything else to "skip" — but `parse_vcf` never reaches it on a
well-formed tab-separated data line: `fields = line.split('\\t')` splits on
the two-character separator backslash-t, which a real VCF line does not
contain, so `fields` is a single-element list and `fields[2]` raises an
uncaught IndexError (modelled as `none`) — a fatal error even for the
perfectly well-formed genotype "0/1", contradicting the claim's
no-fatal-error property. -/
theorem claim_C8 :
    classifyGenotype "0/0".data = some 0 ∧ classifyGenotype "0|0".data = some 0 ∧
    classifyGenotype "0/1".data = some 1 ∧ classifyGenotype "0|1".data = some 1 ∧
    classifyGenotype "1|0".data = some 1 ∧
    classifyGenotype "1/1".data = some 2 ∧ classifyGenotype "1|1".data = some 2 ∧
    classifyGenotype "2/2".data = none ∧ classifyGenotype "1/0".data = none ∧
    parse_vcf "chr1\t1001\trs1\tA\tG\t100\tPASS\t.\tGT\t0/1" = none := by
  refine ⟨rfl, rfl, rfl, rfl, rfl, rfl, rfl, rfl, rfl, by decide⟩

/-- C9: the cell loop of `parse_reference` never aborts as long as the header
provides an ethnicity for every data cell, and a cell whose text cannot be
parsed as a number — the empty string included — is entered as frequency 0.0
and the loop continues. -/
theorem claim_C9 (eths cells : List Key) (acc : List (Key × ℚ))
    (hlen : cells.length ≤ eths.length) :
    (∃ row, buildRowAux eths cells acc = some row) ∧
    (∀ (e c : Key) (es cs : List Key) (acc2 : List (Key × ℚ)),
      parseFloatQ c = none →
        buildRowAux (e :: es) (c :: cs) acc2 = buildRowAux es cs (dinsert e 0 acc2)) ∧
    parseFloatQ [] = none := by
  refine ⟨?_, ?_, rfl⟩
  · induction cells generalizing eths acc with
    | nil =>
      cases eths with
      | nil => exact ⟨acc, rfl⟩
      | cons e es => exact ⟨acc, rfl⟩
    | cons c cs ih =>
      cases eths with
      | nil => simp at hlen
      | cons e es =>
        rw [List.length_cons, List.length_cons, Nat.succ_le_succ_iff] at hlen
        exact ih es (dinsert e ((parseFloatQ c).getD 0) acc) hlen
  · intro e c es cs acc2 hc
    show buildRowAux es cs (dinsert e ((parseFloatQ c).getD 0) acc2) = _
    rw [hc]
    rfl

/-- Witness for C9 at a one-column header and the unparsable cell "abc". -/
theorem claim_C9_witness :
    (["abc".data].length ≤ ["E".data].length) ∧
    ((∃ row, buildRowAux ["E".data] ["abc".data] [] = some row) ∧
      (∀ (e c : Key) (es cs : List Key) (acc2 : List (Key × ℚ)),
        parseFloatQ c = none →
          buildRowAux (e :: es) (c :: cs) acc2 = buildRowAux es cs (dinsert e 0 acc2)) ∧
      parseFloatQ [] = none) :=
  ⟨by decide, claim_C9 ["E".data] ["abc".data] [] (by decide)⟩

theorem calculate_admixture_keys (genos : List (Key × Nat))
    (T : List (Key × List (Key × Option ℚ))) (hKeys : (T.map Prod.fst).Nodup) :
    (calculate_admixture genos T).map Prod.fst = T.map Prod.fst := by
  unfold calculate_admixture
  split
  · rw [foldl_dinsert_eq_map (fun _ => (0:ℝ)) T hKeys, List.map_map]
    rfl
  · unfold likelihoods
    rw [logLikelihoods_eq_map _ _ hKeys, List.map_map, List.map_map, List.map_map]
    exact List.map_congr_left fun a _ => rfl

/-- C10: on any pipeline run (aggregation of any reference table under any
group mapping, then admixture), the proportion vector carries exactly the
sorted major-group labels as keys — so every label of the mapping's value set
is present, whatever its proportion — and the presentation sequence of line
237 is a permutation of it that is sorted by strictly descending proportion
with ties broken by ascending label lexical order. -/
theorem claim_C10 (R : List (Key × List (Key × ℚ))) (pm : List (Key × Key))
    (genos : List (Key × Nat)) :
    (calculate_admixture genos (aggregate_frequencies R pm)).map Prod.fst = sortedMajors pm ∧
    (∀ g, g ∈ pm.map Prod.snd →
      g ∈ (calculate_admixture genos (aggregate_frequencies R pm)).map Prod.fst) ∧
    (sortedProportions (calculate_admixture genos (aggregate_frequencies R pm))).Perm
      (calculate_admixture genos (aggregate_frequencies R pm)) ∧
    (sortedProportions (calculate_admixture genos (aggregate_frequencies R pm))).Pairwise
      (fun a b => b.2 < a.2 ∨ (a.2 = b.2 ∧ keyLt a.1 b.1 = true)) := by
  have hTkeys : (aggregate_frequencies R pm).map Prod.fst = sortedMajors pm :=
    aggregate_keys R pm
  have hmnodup : (sortedMajors pm).Nodup := sortKeys_nodup _ (List.nodup_dedup _)
  have hNodup : ((aggregate_frequencies R pm).map Prod.fst).Nodup := by
    rw [hTkeys]
    exact hmnodup
  have hkeys2 : (calculate_admixture genos (aggregate_frequencies R pm)).map Prod.fst
      = sortedMajors pm := by
    rw [calculate_admixture_keys _ _ hNodup, hTkeys]
  refine ⟨hkeys2, ?_, sortedProportions_perm _, ?_⟩
  · intro g hg
    rw [hkeys2]
    unfold sortedMajors
    rw [mem_sortKeys]
    exact List.mem_dedup.mpr hg
  · have hstrict : ((calculate_admixture genos (aggregate_frequencies R pm)).map
        Prod.fst).Pairwise (fun a b => keyLt a b = true) := by
      rw [hkeys2]
      exact sortKeys_strict_sorted _ (List.nodup_dedup _)
    exact sortedProportions_pairwise _ (List.pairwise_map.mp hstrict)

end Ancestry
